import Mathlib

/-!
Shallow embedding of the toy payments engine core
(`src/transaction.rs`, `src/account.rs`).

Monetary values (`rust_decimal::Decimal`) are embedded as exact rationals
`ℚ`: `Decimal` addition, subtraction and comparison are exact decimal
arithmetic, and `round_dp(4)` with the default `MidpointNearestEven`
strategy is modelled by `roundDp4` below (round half to even at the
fourth decimal digit).  Identifiers (`u16`, `u32`) are embedded as `ℕ`:
they are only ever compared for equality, never subjected to arithmetic,
so wrap-around cannot occur.
-/

/-- `Transaction` from `src/transaction.rs`: one input row
(kind string, client id, transaction id, amount). -/
structure Transaction where
  type_ : String
  client_id : ℕ
  id : ℕ
  amount : ℚ
deriving DecidableEq, Repr

/-- `Transaction::new` from `src/transaction.rs`: empty kind, zero
client, given id, zero amount. -/
def Transaction.new (id : ℕ) : Transaction :=
  { type_ := "", client_id := 0, id := id, amount := 0 }

/-- `Account` from `src/account.rs`: one client's balances, lock flag
and retained transaction history. -/
structure Account where
  id : ℕ
  available : ℚ
  held : ℚ
  total : ℚ
  locked : Bool
  transactions : List Transaction
deriving DecidableEq, Repr

/-- `Account::new`: fresh account, zero balances, unlocked, empty
history. -/
def Account.new (id : ℕ) : Account :=
  { id := id, available := 0, held := 0, total := 0, locked := false,
    transactions := [] }

/-- The scanning loop of `Account::get_transaction_by_id`: linear scan
in insertion order, returning the first record whose `id` equals the
argument. -/
def getTransactionById : List Transaction → ℕ → Option Transaction
  | [], _ => none
  | t :: ts, i => if t.id = i then some t else getTransactionById ts i

/-- `Account::get_transaction_by_id` from `src/account.rs`. -/
def Account.get_transaction_by_id (a : Account) (i : ℕ) : Option Transaction :=
  getTransactionById a.transactions i

/-- `Account::add_transaction`: push a record at the end of the
history; balances are untouched. -/
def Account.add_transaction (a : Account) (t : Transaction) : Account :=
  { a with transactions := a.transactions ++ [t] }

/-- Floor of a rational, written as numerator divided by denominator
(Euclidean division) so that the kernel can evaluate it. -/
def ratFloor (q : ℚ) : ℤ := q.num / (q.den : ℤ)

/-- Round half to even to the nearest integer: `rust_decimal`'s
`MidpointNearestEven`, the default strategy of `round_dp`. -/
def roundHalfEven (q : ℚ) : ℤ :=
  if q - ratFloor q < 1/2 then ratFloor q
  else if 1/2 < q - ratFloor q then ratFloor q + 1
  else if ratFloor q % 2 = 0 then ratFloor q else ratFloor q + 1

/-- `Decimal::round_dp(4)`: round half to even at 4 fractional
digits. -/
def roundDp4 (q : ℚ) : ℚ :=
  (roundHalfEven (q * 10000) : ℚ) / 10000

/-- `Account::round`: round the three balances to 4 decimal digits. -/
def Account.round (a : Account) : Account :=
  { a with available := roundDp4 a.available, held := roundDp4 a.held,
           total := roundDp4 a.total }

/-- `Account::deposit`: unconditionally add the amount to `available`
and `total`. -/
def Account.deposit (a : Account) (t : Transaction) : Account :=
  { a with available := a.available + t.amount, total := a.total + t.amount }

/-- `Account::withdrawal`: applied only when `available - amount` is
strictly positive, otherwise a silent no-op. -/
def Account.withdrawal (a : Account) (t : Transaction) : Account :=
  if 0 < a.available - t.amount then
    { a with available := a.available - t.amount, total := a.total - t.amount }
  else a

/-- `Account::dispute`: move the referenced record's amount from
`available` to `held`; no-op when the lookup fails. -/
def Account.dispute (a : Account) (t : Transaction) : Account :=
  match a.get_transaction_by_id t.id with
  | some tr => { a with available := a.available - tr.amount,
                        held := a.held + tr.amount }
  | none => a

/-- `Account::resolve`: move the referenced record's amount from `held`
back to `available`; no-op when the lookup fails. -/
def Account.resolve (a : Account) (t : Transaction) : Account :=
  match a.get_transaction_by_id t.id with
  | some tr => { a with available := a.available + tr.amount,
                        held := a.held - tr.amount }
  | none => a

/-- `Account::chargeback`: remove the referenced record's amount from
`total` and `held` and lock the account; no-op when the lookup
fails. -/
def Account.chargeback (a : Account) (t : Transaction) : Account :=
  match a.get_transaction_by_id t.id with
  | some tr => { a with total := a.total - tr.amount,
                        held := a.held - tr.amount,
                        locked := true }
  | none => a

/-- The dispatch on `transaction.type_` inside the loop of
`Account::process_transactions`; an unrecognized kind only prints a
diagnostic, leaving the account unchanged. -/
def Account.applyRecord (a : Account) (t : Transaction) : Account :=
  if t.type_ = "deposit" then a.deposit t
  else if t.type_ = "withdrawal" then a.withdrawal t
  else if t.type_ = "dispute" then a.dispute t
  else if t.type_ = "resolve" then a.resolve t
  else if t.type_ = "chargeback" then a.chargeback t
  else a

/-- `Account::process_transactions`: iterate over a snapshot of the
history in insertion order, dispatching each record, then round the
balances. -/
def Account.process_transactions (a : Account) : Account :=
  (a.transactions.foldl Account.applyRecord a).round

/-! ### Basic facts about the rounding function -/

theorem ratFloor_eq_floor (q : ℚ) : ratFloor q = ⌊q⌋ :=
  Rat.floor_def.symm

theorem roundHalfEven_eq (q : ℚ) :
    roundHalfEven q =
      if q - ⌊q⌋ < 1/2 then ⌊q⌋
      else if 1/2 < q - ⌊q⌋ then ⌊q⌋ + 1
      else if ⌊q⌋ % 2 = 0 then ⌊q⌋ else ⌊q⌋ + 1 := by
  rw [roundHalfEven, ratFloor_eq_floor]

theorem roundHalfEven_intCast (k : ℤ) : roundHalfEven (k : ℚ) = k := by
  rw [roundHalfEven_eq]
  norm_num

theorem roundDp4_int_div (k : ℤ) :
    roundDp4 ((k : ℚ) / 10000) = (k : ℚ) / 10000 := by
  have h : ((k : ℚ) / 10000) * 10000 = (k : ℚ) := by field_simp
  rw [roundDp4, h, roundHalfEven_intCast]

theorem roundDp4_intCast (k : ℤ) : roundDp4 (k : ℚ) = (k : ℚ) := by
  have h : ((k : ℚ)) * 10000 = ((k * 10000 : ℤ) : ℚ) := by push_cast; ring
  rw [roundDp4, h, roundHalfEven_intCast]
  push_cast
  field_simp

theorem roundDp4_zero : roundDp4 0 = 0 := by
  simpa using roundDp4_intCast 0

/-- Rounding the sum of an already-rounded value and the value that
produced it lands exactly on the double: the midpoint case resolves to
`2 * roundHalfEven q`, which is always even. -/
theorem roundHalfEven_round_add (q : ℚ) :
    roundHalfEven ((roundHalfEven q : ℚ) + q) = 2 * roundHalfEven q := by
  have hfl : ⌊(roundHalfEven q : ℚ) + q⌋ = roundHalfEven q + ⌊q⌋ :=
    Int.floor_int_add _ q
  have hfr : ((roundHalfEven q : ℚ) + q) - ⌊(roundHalfEven q : ℚ) + q⌋
      = q - ⌊q⌋ := by
    rw [hfl]; push_cast; ring
  rw [roundHalfEven_eq ((roundHalfEven q : ℚ) + q), hfr, hfl,
    roundHalfEven_eq q]
  split_ifs with h1 h2 h3 <;> omega

theorem roundDp4_round_add (x : ℚ) :
    roundDp4 (roundDp4 x + x) = 2 * roundDp4 x := by
  have h : (roundDp4 x + x) * 10000
      = (roundHalfEven (x * 10000) : ℚ) + x * 10000 := by
    rw [roundDp4]; field_simp
  rw [roundDp4, h, roundHalfEven_round_add, roundDp4]
  push_cast
  ring

theorem roundHalfEven_nonneg {q : ℚ} (h : 0 ≤ q) : 0 ≤ roundHalfEven q := by
  have hf : (0 : ℤ) ≤ ⌊q⌋ := Int.floor_nonneg.mpr h
  rw [roundHalfEven_eq]
  split_ifs <;> omega

theorem roundDp4_nonneg {q : ℚ} (h : 0 ≤ q) : 0 ≤ roundDp4 q := by
  have h4 : (0 : ℚ) ≤ q * 10000 := by positivity
  have := roundHalfEven_nonneg h4
  rw [roundDp4]
  positivity

/-! ### Frame facts: which fields each operation can touch -/

theorem deposit_transactions (a : Account) (t : Transaction) :
    (a.deposit t).transactions = a.transactions := rfl

theorem withdrawal_transactions (a : Account) (t : Transaction) :
    (a.withdrawal t).transactions = a.transactions := by
  unfold Account.withdrawal; split <;> rfl

theorem dispute_transactions (a : Account) (t : Transaction) :
    (a.dispute t).transactions = a.transactions := by
  unfold Account.dispute; split <;> rfl

theorem resolve_transactions (a : Account) (t : Transaction) :
    (a.resolve t).transactions = a.transactions := by
  unfold Account.resolve; split <;> rfl

theorem chargeback_transactions (a : Account) (t : Transaction) :
    (a.chargeback t).transactions = a.transactions := by
  unfold Account.chargeback; split <;> rfl

theorem applyRecord_transactions (a : Account) (t : Transaction) :
    (a.applyRecord t).transactions = a.transactions := by
  unfold Account.applyRecord
  split_ifs <;>
    simp [deposit_transactions, withdrawal_transactions,
      dispute_transactions, resolve_transactions, chargeback_transactions]

theorem foldl_applyRecord_transactions (m : List Transaction) :
    ∀ a : Account,
      (m.foldl Account.applyRecord a).transactions = a.transactions := by
  induction m with
  | nil => intro a; rfl
  | cons t ts ih =>
    intro a
    rw [List.foldl_cons, ih, applyRecord_transactions]

theorem applyRecord_id (a : Account) (t : Transaction) :
    (a.applyRecord t).id = a.id := by
  unfold Account.applyRecord Account.deposit Account.withdrawal
    Account.dispute Account.resolve Account.chargeback
  split_ifs <;> (try split) <;> rfl

theorem foldl_applyRecord_id (m : List Transaction) :
    ∀ a : Account, (m.foldl Account.applyRecord a).id = a.id := by
  induction m with
  | nil => intro a; rfl
  | cons t ts ih =>
    intro a
    rw [List.foldl_cons, ih, applyRecord_id]

/-! ### Facts about the lock flag -/

theorem deposit_locked (a : Account) (t : Transaction) :
    (a.deposit t).locked = a.locked := rfl

theorem withdrawal_locked (a : Account) (t : Transaction) :
    (a.withdrawal t).locked = a.locked := by
  unfold Account.withdrawal; split <;> rfl

theorem dispute_locked (a : Account) (t : Transaction) :
    (a.dispute t).locked = a.locked := by
  unfold Account.dispute; split <;> rfl

theorem resolve_locked (a : Account) (t : Transaction) :
    (a.resolve t).locked = a.locked := by
  unfold Account.resolve; split <;> rfl

theorem chargeback_locked_of_isSome (a : Account) (t : Transaction)
    (h : (a.get_transaction_by_id t.id).isSome = true) :
    (a.chargeback t).locked = true := by
  unfold Account.chargeback
  cases hq : a.get_transaction_by_id t.id with
  | none => rw [hq] at h; simp at h
  | some tr => simp [hq]

theorem chargeback_locked_cases (a : Account) (t : Transaction) :
    (a.chargeback t).locked = true ∨ a.chargeback t = a := by
  unfold Account.chargeback
  cases hq : a.get_transaction_by_id t.id with
  | none => right; rfl
  | some tr => left; rfl

theorem applyRecord_locked_mono (a : Account) (t : Transaction)
    (h : a.locked = true) : (a.applyRecord t).locked = true := by
  unfold Account.applyRecord
  split_ifs with h1 h2 h3 h4 h5
  · rw [deposit_locked]; exact h
  · rw [withdrawal_locked]; exact h
  · rw [dispute_locked]; exact h
  · rw [resolve_locked]; exact h
  · rcases chargeback_locked_cases a t with hc | hc
    · exact hc
    · rw [hc]; exact h
  · exact h

theorem foldl_applyRecord_locked_mono (m : List Transaction) :
    ∀ a : Account, a.locked = true →
      (m.foldl Account.applyRecord a).locked = true := by
  induction m with
  | nil => intro a h; exact h
  | cons t ts ih =>
    intro a h
    rw [List.foldl_cons]
    exact ih _ (applyRecord_locked_mono a t h)

theorem round_locked (a : Account) : a.round.locked = a.locked := rfl

theorem applyRecord_locked_new (a : Account) (t : Transaction)
    (h0 : a.locked = false) (h1 : (a.applyRecord t).locked = true) :
    t.type_ = "chargeback" ∧ (a.get_transaction_by_id t.id).isSome = true := by
  unfold Account.applyRecord at h1
  split_ifs at h1 with hd hw hp hr hc
  · rw [deposit_locked, h0] at h1; cases h1
  · rw [withdrawal_locked, h0] at h1; cases h1
  · rw [dispute_locked, h0] at h1; cases h1
  · rw [resolve_locked, h0] at h1; cases h1
  · refine ⟨hc, ?_⟩
    unfold Account.chargeback at h1
    cases hq : a.get_transaction_by_id t.id with
    | none => rw [hq] at h1; simp at h1; rw [h0] at h1; cases h1
    | some tr => simp [hq]
  · rw [h0] at h1; cases h1

/-! ### The lookup always succeeds for a record stored in the history -/

theorem mem_getTransactionById_isSome {l : List Transaction}
    {t : Transaction} (h : t ∈ l) :
    (getTransactionById l t.id).isSome = true := by
  induction l with
  | nil => cases h
  | cons u us ih =>
    by_cases hu : u.id = t.id
    · simp [getTransactionById, hu]
    · rcases List.mem_cons.mp h with h1 | h1
      · rw [h1] at hu; exact absurd rfl hu
      · simp [getTransactionById, hu, ih h1]

/-! ### Projection facts about rounding and replay -/

theorem round_transactions (a : Account) :
    a.round.transactions = a.transactions := rfl

theorem round_id (a : Account) : a.round.id = a.id := rfl

theorem process_transactions_available (a : Account) :
    a.process_transactions.available
      = roundDp4 (a.transactions.foldl Account.applyRecord a).available := rfl

theorem process_transactions_held (a : Account) :
    a.process_transactions.held
      = roundDp4 (a.transactions.foldl Account.applyRecord a).held := rfl

theorem process_transactions_total (a : Account) :
    a.process_transactions.total
      = roundDp4 (a.transactions.foldl Account.applyRecord a).total := rfl

theorem process_transactions_transactions (a : Account) :
    a.process_transactions.transactions = a.transactions := by
  rw [Account.process_transactions, round_transactions,
    foldl_applyRecord_transactions]

theorem process_transactions_id (a : Account) :
    a.process_transactions.id = a.id := by
  rw [Account.process_transactions, round_id, foldl_applyRecord_id]

/-! ### The balance invariant `total = available + held` is preserved
by every dispatch step -/

theorem applyRecord_invariant (a : Account) (t : Transaction)
    (h : a.total = a.available + a.held) :
    (a.applyRecord t).total
      = (a.applyRecord t).available + (a.applyRecord t).held := by
  unfold Account.applyRecord Account.deposit Account.withdrawal
    Account.dispute Account.resolve Account.chargeback
  split_ifs <;> (try split) <;> (try simp) <;> linarith

theorem foldl_applyRecord_invariant (m : List Transaction) :
    ∀ a : Account, a.total = a.available + a.held →
      (m.foldl Account.applyRecord a).total
        = (m.foldl Account.applyRecord a).available
          + (m.foldl Account.applyRecord a).held := by
  induction m with
  | nil => intro a h; exact h
  | cons t ts ih =>
    intro a h
    rw [List.foldl_cons]
    exact ih _ (applyRecord_invariant a t h)

/-! ### State-independent per-record balance deltas (no withdrawals) -/

/-- The amount acted upon by a reference record: the amount of the
first record in `L` carrying the referenced id, `0` when the lookup
fails. -/
def refAmount (L : List Transaction) (t : Transaction) : ℚ :=
  match getTransactionById L t.id with
  | some tr => tr.amount
  | none => 0

/-- Change of `available` caused by one non-withdrawal record. -/
def deltaAvailable (L : List Transaction) (t : Transaction) : ℚ :=
  if t.type_ = "deposit" then t.amount
  else if t.type_ = "dispute" then -(refAmount L t)
  else if t.type_ = "resolve" then refAmount L t
  else 0

/-- Change of `held` caused by one non-withdrawal record. -/
def deltaHeld (L : List Transaction) (t : Transaction) : ℚ :=
  if t.type_ = "dispute" then refAmount L t
  else if t.type_ = "resolve" then -(refAmount L t)
  else if t.type_ = "chargeback" then -(refAmount L t)
  else 0

/-- Change of `total` caused by one non-withdrawal record. -/
def deltaTotal (L : List Transaction) (t : Transaction) : ℚ :=
  if t.type_ = "deposit" then t.amount
  else if t.type_ = "chargeback" then -(refAmount L t)
  else 0

theorem applyRecord_balances (a : Account) (t : Transaction)
    (hw : t.type_ ≠ "withdrawal") :
    (a.applyRecord t).available = a.available + deltaAvailable a.transactions t
    ∧ (a.applyRecord t).held = a.held + deltaHeld a.transactions t
    ∧ (a.applyRecord t).total = a.total + deltaTotal a.transactions t := by
  by_cases h1 : t.type_ = "deposit"
  · refine ⟨?_, ?_, ?_⟩ <;>
      simp +decide [Account.applyRecord, Account.deposit, deltaAvailable,
        deltaHeld, deltaTotal, h1]
  · by_cases h2 : t.type_ = "dispute"
    · cases hq : getTransactionById a.transactions t.id with
      | some tr =>
        refine ⟨?_, ?_, ?_⟩ <;>
          simp +decide [Account.applyRecord, Account.dispute,
            Account.get_transaction_by_id, hq, refAmount, deltaAvailable,
            deltaHeld, deltaTotal, h1, h2, hw] <;> (try ring)
      | none =>
        refine ⟨?_, ?_, ?_⟩ <;>
          simp +decide [Account.applyRecord, Account.dispute,
            Account.get_transaction_by_id, hq, refAmount, deltaAvailable,
            deltaHeld, deltaTotal, h1, h2, hw]
    · by_cases h3 : t.type_ = "resolve"
      · cases hq : getTransactionById a.transactions t.id with
        | some tr =>
          refine ⟨?_, ?_, ?_⟩ <;>
            simp +decide [Account.applyRecord, Account.resolve,
              Account.get_transaction_by_id, hq, refAmount, deltaAvailable,
              deltaHeld, deltaTotal, h1, h2, h3, hw] <;> (try ring)
        | none =>
          refine ⟨?_, ?_, ?_⟩ <;>
            simp +decide [Account.applyRecord, Account.resolve,
              Account.get_transaction_by_id, hq, refAmount, deltaAvailable,
              deltaHeld, deltaTotal, h1, h2, h3, hw]
      · by_cases h4 : t.type_ = "chargeback"
        · cases hq : getTransactionById a.transactions t.id with
          | some tr =>
            refine ⟨?_, ?_, ?_⟩ <;>
              simp +decide [Account.applyRecord, Account.chargeback,
                Account.get_transaction_by_id, hq, refAmount, deltaAvailable,
                deltaHeld, deltaTotal, h1, h2, h3, h4, hw] <;> (try ring)
          | none =>
            refine ⟨?_, ?_, ?_⟩ <;>
              simp +decide [Account.applyRecord, Account.chargeback,
                Account.get_transaction_by_id, hq, refAmount, deltaAvailable,
                deltaHeld, deltaTotal, h1, h2, h3, h4, hw]
        · refine ⟨?_, ?_, ?_⟩ <;>
            simp [Account.applyRecord, deltaAvailable, deltaHeld,
              deltaTotal, h1, h2, h3, h4, hw]

theorem foldl_applyRecord_delta (m : List Transaction) :
    ∀ a : Account, (∀ t ∈ m, t.type_ ≠ "withdrawal") →
      (m.foldl Account.applyRecord a).available
          = a.available + (m.map (deltaAvailable a.transactions)).sum
      ∧ (m.foldl Account.applyRecord a).held
          = a.held + (m.map (deltaHeld a.transactions)).sum
      ∧ (m.foldl Account.applyRecord a).total
          = a.total + (m.map (deltaTotal a.transactions)).sum := by
  induction m with
  | nil => intro a h; simp
  | cons t ts ih =>
    intro a h
    have hw : t.type_ ≠ "withdrawal" := h t (List.mem_cons_self t ts)
    obtain ⟨ha, hh, ht⟩ := applyRecord_balances a t hw
    have htr : (a.applyRecord t).transactions = a.transactions :=
      applyRecord_transactions a t
    obtain ⟨ia, ihh, it⟩ :=
      ih (a.applyRecord t) (fun u hu => h u (List.mem_cons_of_mem t hu))
    rw [List.foldl_cons]
    refine ⟨?_, ?_, ?_⟩
    · rw [ia, htr, ha, List.map_cons, List.sum_cons]; ring
    · rw [ihh, htr, hh, List.map_cons, List.sum_cons]; ring
    · rw [it, htr, ht, List.map_cons, List.sum_cons]; ring

/-! ### Non-negativity for deposit/withdrawal-only histories -/

theorem applyRecord_dw_nonneg (a : Account) (t : Transaction)
    (hty : t.type_ = "deposit" ∨ t.type_ = "withdrawal")
    (ham : 0 ≤ t.amount) (h1 : 0 ≤ a.available) (h2 : a.held = 0)
    (h3 : a.total = a.available) :
    0 ≤ (a.applyRecord t).available ∧ (a.applyRecord t).held = 0
    ∧ (a.applyRecord t).total = (a.applyRecord t).available := by
  rcases hty with h | h
  · refine ⟨?_, ?_, ?_⟩ <;>
      simp +decide [Account.applyRecord, Account.deposit, h, h2, h3] <;>
      linarith
  · by_cases hc : 0 < a.available - t.amount
    · refine ⟨?_, ?_, ?_⟩ <;>
        simp +decide [Account.applyRecord, Account.withdrawal, h, hc, h2,
          h3] <;> linarith
    · refine ⟨?_, ?_, ?_⟩ <;>
        simp +decide [Account.applyRecord, Account.withdrawal, h, hc, h2,
          h3] <;> (try linarith)

theorem foldl_dw_nonneg (m : List Transaction) :
    ∀ a : Account,
      (∀ t ∈ m, (t.type_ = "deposit" ∨ t.type_ = "withdrawal")
        ∧ 0 ≤ t.amount) →
      0 ≤ a.available → a.held = 0 → a.total = a.available →
      0 ≤ (m.foldl Account.applyRecord a).available
      ∧ (m.foldl Account.applyRecord a).held = 0
      ∧ (m.foldl Account.applyRecord a).total
          = (m.foldl Account.applyRecord a).available := by
  induction m with
  | nil => intro a _ h1 h2 h3; exact ⟨h1, h2, h3⟩
  | cons t ts ih =>
    intro a h h1 h2 h3
    obtain ⟨hty, ham⟩ := h t (List.mem_cons_self t ts)
    obtain ⟨g1, g2, g3⟩ := applyRecord_dw_nonneg a t hty ham h1 h2 h3
    rw [List.foldl_cons]
    exact ih _ (fun u hu => h u (List.mem_cons_of_mem t hu)) g1 g2 g3

theorem getTransactionById_eq_find (l : List Transaction) (i : ℕ) :
    getTransactionById l i = l.find? (fun u => u.id == i) := by
  induction l with
  | nil => rfl
  | cons t ts ih =>
    by_cases h : t.id = i
    · rw [getTransactionById, if_pos h, List.find?_cons_of_pos _ (by simp [h])]
    · rw [getTransactionById, if_neg h, List.find?_cons_of_neg _ (by simp [h]),
        ih]

theorem foldl_chargeback_locked (m : List Transaction) :
    ∀ (a : Account) (t : Transaction), t ∈ m → t ∈ a.transactions →
      t.type_ = "chargeback" →
      (m.foldl Account.applyRecord a).locked = true := by
  induction m with
  | nil => intro a t h _ _; cases h
  | cons u us ih =>
    intro a t hm ha hty
    rw [List.foldl_cons]
    rcases List.mem_cons.mp hm with he | hm2
    · subst he
      apply foldl_applyRecord_locked_mono
      have hstep : a.applyRecord t = a.chargeback t := by
        simp +decide [Account.applyRecord, hty]
      rw [hstep]
      exact chargeback_locked_of_isSome a t (mem_getTransactionById_isSome ha)
    · refine ih (a.applyRecord u) t hm2 ?_ hty
      rw [applyRecord_transactions]
      exact ha

/-! ## The claims -/

/-- C1: for every account whose balances satisfy
`total = available + held` (in particular a fresh account), after
`process_transactions` the equality still holds up to the final
rounding of each balance to 4 decimal digits: it holds exactly for the
pre-rounding balances produced by the dispatch pass, and each final
balance is exactly the corresponding pre-rounding balance rounded by
`roundDp4`. -/
theorem c1_total_invariant (a : Account)
    (h : a.total = a.available + a.held) :
    (a.transactions.foldl Account.applyRecord a).total
        = (a.transactions.foldl Account.applyRecord a).available
          + (a.transactions.foldl Account.applyRecord a).held
    ∧ a.process_transactions.available
        = roundDp4 (a.transactions.foldl Account.applyRecord a).available
    ∧ a.process_transactions.held
        = roundDp4 (a.transactions.foldl Account.applyRecord a).held
    ∧ a.process_transactions.total
        = roundDp4 (a.transactions.foldl Account.applyRecord a).total :=
  ⟨foldl_applyRecord_invariant a.transactions a h, rfl, rfl, rfl⟩

def c1acct : Account :=
  (Account.new 1).add_transaction
    { type_ := "deposit", client_id := 1, id := 1, amount := 3 }

theorem c1_total_invariant_witness :
    c1acct.total = c1acct.available + c1acct.held
    ∧ ((c1acct.transactions.foldl Account.applyRecord c1acct).total
        = (c1acct.transactions.foldl Account.applyRecord c1acct).available
          + (c1acct.transactions.foldl Account.applyRecord c1acct).held
      ∧ c1acct.process_transactions.available
        = roundDp4 (c1acct.transactions.foldl Account.applyRecord c1acct).available
      ∧ c1acct.process_transactions.held
        = roundDp4 (c1acct.transactions.foldl Account.applyRecord c1acct).held
      ∧ c1acct.process_transactions.total
        = roundDp4 (c1acct.transactions.foldl Account.applyRecord c1acct).total) :=
  ⟨by norm_num [c1acct, Account.new, Account.add_transaction],
   c1_total_invariant c1acct
     (by norm_num [c1acct, Account.new, Account.add_transaction])⟩

/-- C5: a withdrawal is applied (`available -= amount`,
`total -= amount`, other fields unchanged) exactly when
`available - amount` is strictly positive; otherwise the record is
silently skipped, leaving the account (in particular `available`,
`held`, `total`, `locked`) unchanged; a withdrawal of exactly the
current available balance is rejected. -/
theorem c5_withdrawal_guard (a : Account) (t : Transaction) :
    (0 < a.available - t.amount →
      a.withdrawal t
        = { a with available := a.available - t.amount,
                   total := a.total - t.amount })
    ∧ (¬ 0 < a.available - t.amount → a.withdrawal t = a)
    ∧ (t.amount = a.available → a.withdrawal t = a) := by
  refine ⟨fun h => ?_, fun h => ?_, fun h => ?_⟩
  · rw [Account.withdrawal, if_pos h]
  · rw [Account.withdrawal, if_neg h]
  · rw [Account.withdrawal, if_neg (by rw [h]; simp)]

def c5acct : Account :=
  { id := 1, available := 3, held := 0, total := 3, locked := false,
    transactions := [] }

def c5tx : Transaction :=
  { type_ := "withdrawal", client_id := 1, id := 1, amount := 1 }

theorem c5_withdrawal_guard_witness :
    (0 < c5acct.available - c5tx.amount
      ∧ c5acct.withdrawal c5tx
          = { c5acct with available := c5acct.available - c5tx.amount,
                          total := c5acct.total - c5tx.amount })
    ∧ (c5tx.amount = c5acct.available → c5acct.withdrawal c5tx = c5acct) :=
  ⟨⟨by norm_num [c5acct, c5tx],
    (c5_withdrawal_guard c5acct c5tx).1 (by norm_num [c5acct, c5tx])⟩,
   (c5_withdrawal_guard c5acct c5tx).2.2⟩

/-- C10: replay is a pure balance/lock computation: it never touches
the account id or the stored history, for every account. -/
theorem c10_replay_frame (a : Account) :
    a.process_transactions.id = a.id
    ∧ a.process_transactions.transactions = a.transactions :=
  ⟨process_transactions_id a, process_transactions_transactions a⟩

/-- C8: the lock flag is monotonic: none of append, deposit,
withdrawal, dispute, resolve, chargeback, dispatch or replay ever
changes `locked` from `true` to `false`, and a dispatch step sets
`locked` on a previously unlocked account only for a chargeback record
whose id lookup succeeds. -/
theorem c8_locked_monotone :
    (∀ (a : Account) (t : Transaction),
      (a.add_transaction t).locked = a.locked)
    ∧ (∀ (a : Account) (t : Transaction), (a.deposit t).locked = a.locked)
    ∧ (∀ (a : Account) (t : Transaction),
        (a.withdrawal t).locked = a.locked)
    ∧ (∀ (a : Account) (t : Transaction), (a.dispute t).locked = a.locked)
    ∧ (∀ (a : Account) (t : Transaction), (a.resolve t).locked = a.locked)
    ∧ (∀ (a : Account) (t : Transaction), a.locked = true →
        (a.chargeback t).locked = true)
    ∧ (∀ (a : Account) (t : Transaction), a.locked = true →
        (a.applyRecord t).locked = true)
    ∧ (∀ a : Account, a.locked = true →
        a.process_transactions.locked = true)
    ∧ (∀ (a : Account) (t : Transaction), a.locked = false →
        (a.applyRecord t).locked = true →
        t.type_ = "chargeback"
          ∧ (a.get_transaction_by_id t.id).isSome = true) := by
  refine ⟨fun a t => rfl, deposit_locked, withdrawal_locked, dispute_locked,
    resolve_locked, ?_, applyRecord_locked_mono, ?_, applyRecord_locked_new⟩
  · intro a t h
    rcases chargeback_locked_cases a t with hc | hc
    · exact hc
    · rw [hc]; exact h
  · intro a h
    rw [Account.process_transactions, round_locked]
    exact foldl_applyRecord_locked_mono a.transactions a h

def c8acct : Account :=
  { id := 1, available := 0, held := 0, total := 0, locked := true,
    transactions := [] }

def c8cb : Transaction :=
  { type_ := "chargeback", client_id := 1, id := 9, amount := 0 }

def c8acct2 : Account :=
  { id := 1, available := 0, held := 0, total := 0, locked := false,
    transactions := [c8cb] }

theorem c8_locked_monotone_witness :
    (c8acct.locked = true ∧ (c8acct.applyRecord (Transaction.new 1)).locked = true)
    ∧ (c8acct.locked = true ∧ c8acct.process_transactions.locked = true)
    ∧ (c8acct2.locked = false ∧ (c8acct2.applyRecord c8cb).locked = true
        ∧ (c8cb.type_ = "chargeback"
            ∧ (c8acct2.get_transaction_by_id c8cb.id).isSome = true)) :=
  ⟨⟨rfl, c8_locked_monotone.2.2.2.2.2.2.1 c8acct (Transaction.new 1) rfl⟩,
   ⟨rfl, c8_locked_monotone.2.2.2.2.2.2.2.1 c8acct rfl⟩,
   ⟨rfl, by norm_num +decide [c8acct2, c8cb, Account.applyRecord,
      Account.chargeback, Account.get_transaction_by_id, getTransactionById],
    c8_locked_monotone.2.2.2.2.2.2.2.2 c8acct2 c8cb rfl
      (by norm_num +decide [c8acct2, c8cb, Account.applyRecord,
        Account.chargeback, Account.get_transaction_by_id,
        getTransactionById])⟩⟩

/-- C9: for any record stored in a history, the id lookup over that
history succeeds (the record matches its own id), so the not-found
branch is unreachable during replay; consequently replaying any
account whose history contains a chargeback record — even one
referencing an id with no matching deposit or withdrawal — leaves the
account locked. -/
theorem c9_lookup_always_succeeds :
    (∀ (l : List Transaction) (t : Transaction), t ∈ l →
      (getTransactionById l t.id).isSome = true)
    ∧ (∀ (a : Account) (t : Transaction), t ∈ a.transactions →
      t.type_ = "chargeback" → a.process_transactions.locked = true) := by
  refine ⟨fun l t h => mem_getTransactionById_isSome h, ?_⟩
  intro a t hmem hty
  rw [Account.process_transactions, round_locked]
  exact foldl_chargeback_locked a.transactions a t hmem hmem hty

def c9cb : Transaction :=
  { type_ := "chargeback", client_id := 1, id := 42, amount := 0 }

def c9acct : Account := (Account.new 1).add_transaction c9cb

theorem c9_lookup_always_succeeds_witness :
    (c9cb ∈ [c9cb] ∧ (getTransactionById [c9cb] c9cb.id).isSome = true)
    ∧ (c9cb ∈ c9acct.transactions ∧ c9cb.type_ = "chargeback"
        ∧ c9acct.process_transactions.locked = true) :=
  ⟨⟨List.mem_singleton.mpr rfl,
    c9_lookup_always_succeeds.1 [c9cb] c9cb (List.mem_singleton.mpr rfl)⟩,
   ⟨by simp [c9acct, Account.new, Account.add_transaction], rfl,
    c9_lookup_always_succeeds.2 c9acct c9cb
      (by simp [c9acct, Account.new, Account.add_transaction]) rfl⟩⟩

/-- An orphan reference record: a dispute whose id matches no deposit
or withdrawal. -/
def orphanDispute : Transaction :=
  { type_ := "dispute", client_id := 1, id := 1, amount := 5 }

def orphanAcct : Account := (Account.new 1).add_transaction orphanDispute

/-- C2 (counterexample): replaying a history consisting of a single
dispute record with id 1 and amount 5 — referencing no deposit or
withdrawal — changes `available` (to `-5`), refuting the claim that
such a record leaves the balances unchanged. -/
theorem c2_counterexample :
    orphanAcct.process_transactions.available ≠ orphanAcct.available := by
  norm_num +decide [orphanAcct, orphanDispute, Account.process_transactions,
    Account.new, Account.add_transaction, Account.applyRecord,
    Account.dispute, Account.get_transaction_by_id, getTransactionById,
    Account.round, roundDp4, roundHalfEven, ratFloor]

/-- C2 (amended): during replay the lookup for a dispute, resolve, or
chargeback record never fails — even when its id matches no deposit or
withdrawal, the first stored record carrying that id (possibly the
reference record itself, or an earlier reference record) is matched —
and the balances change by that first-matching record's amount field
(`refAmount`): a dispute moves it from `available` to `held`, a resolve
the reverse, a chargeback removes it from `total` and `held` and locks
the account even then.  The balances are unchanged exactly when that
first-matching amount is zero.  (During replay every dispatched record
is a member of the account's history, which replay never modifies.) -/
theorem c2_reference_first_match_effect (a : Account) (t : Transaction)
    (hmem : t ∈ a.transactions) :
    (a.get_transaction_by_id t.id).isSome = true
    ∧ (t.type_ = "dispute" →
        (a.applyRecord t).available
            = a.available - refAmount a.transactions t
        ∧ (a.applyRecord t).held = a.held + refAmount a.transactions t
        ∧ (a.applyRecord t).total = a.total)
    ∧ (t.type_ = "resolve" →
        (a.applyRecord t).available
            = a.available + refAmount a.transactions t
        ∧ (a.applyRecord t).held = a.held - refAmount a.transactions t
        ∧ (a.applyRecord t).total = a.total)
    ∧ (t.type_ = "chargeback" →
        (a.applyRecord t).available = a.available
        ∧ (a.applyRecord t).held = a.held - refAmount a.transactions t
        ∧ (a.applyRecord t).total = a.total - refAmount a.transactions t
        ∧ (a.applyRecord t).locked = true) := by
  refine ⟨mem_getTransactionById_isSome hmem, fun h => ?_, fun h => ?_,
    fun h => ?_⟩
  · obtain ⟨ha, hh, ht⟩ := applyRecord_balances a t (by simp [h])
    rw [ha, hh, ht]
    refine ⟨?_, ?_, ?_⟩ <;>
      simp +decide [deltaAvailable, deltaHeld, deltaTotal, h] <;> ring
  · obtain ⟨ha, hh, ht⟩ := applyRecord_balances a t (by simp [h])
    rw [ha, hh, ht]
    refine ⟨?_, ?_, ?_⟩ <;>
      simp +decide [deltaAvailable, deltaHeld, deltaTotal, h] <;> ring
  · obtain ⟨ha, hh, ht⟩ := applyRecord_balances a t (by simp [h])
    have hstep : a.applyRecord t = a.chargeback t := by
      simp +decide [Account.applyRecord, h]
    refine ⟨?_, ?_, ?_, ?_⟩
    · rw [ha]; simp +decide [deltaAvailable, h]
    · rw [hh]; simp +decide [deltaHeld, h]; ring
    · rw [ht]; simp +decide [deltaTotal, h]; ring
    · rw [hstep]
      exact chargeback_locked_of_isSome a t (mem_getTransactionById_isSome hmem)

def c2w1 : Transaction :=
  { type_ := "dispute", client_id := 1, id := 7, amount := 2 }

def c2w2 : Transaction :=
  { type_ := "dispute", client_id := 1, id := 7, amount := 9 }

def c2wacct : Account :=
  ((Account.new 1).add_transaction c2w1).add_transaction c2w2

theorem c2_reference_first_match_effect_witness :
    c2w2 ∈ c2wacct.transactions
    ∧ c2w2.type_ = "dispute"
    ∧ refAmount c2wacct.transactions c2w2 = 2
    ∧ c2w2.amount = 9
    ∧ ((c2wacct.get_transaction_by_id c2w2.id).isSome = true
      ∧ ((c2wacct.applyRecord c2w2).available
            = c2wacct.available - refAmount c2wacct.transactions c2w2
        ∧ (c2wacct.applyRecord c2w2).held
            = c2wacct.held + refAmount c2wacct.transactions c2w2
        ∧ (c2wacct.applyRecord c2w2).total = c2wacct.total)) := by
  have hmem : c2w2 ∈ c2wacct.transactions := by
    rw [show c2wacct.transactions = [c2w1, c2w2] from rfl]
    exact List.mem_cons_of_mem _ (List.mem_cons_self _ _)
  refine ⟨hmem, rfl, ?_, rfl,
    (c2_reference_first_match_effect c2wacct c2w2 hmem).1,
    (c2_reference_first_match_effect c2wacct c2w2 hmem).2.1 rfl⟩
  norm_num [refAmount, c2wacct, c2w1, c2w2, Account.new,
    Account.add_transaction, getTransactionById]

/-- C3: the id lookup returns the first record in insertion order
whose id equals the argument (it agrees with `List.find?`); moreover
any record stored in the history is found when looked up by its own
id, so the lookup for a stored reference record can never return
not-found. -/
theorem c3_first_match (l : List Transaction) (i : ℕ) (t : Transaction) :
    getTransactionById l i = l.find? (fun u => u.id == i)
    ∧ (t ∈ l → (getTransactionById l t.id).isSome = true) :=
  ⟨getTransactionById_eq_find l i, fun h => mem_getTransactionById_isSome h⟩

theorem c3_first_match_witness :
    getTransactionById [orphanDispute] 1
        = [orphanDispute].find? (fun u => u.id == 1)
    ∧ (orphanDispute ∈ [orphanDispute]
      ∧ (getTransactionById [orphanDispute] orphanDispute.id).isSome
          = true) :=
  ⟨(c3_first_match [orphanDispute] 1 orphanDispute).1,
   ⟨List.mem_singleton.mpr rfl,
    (c3_first_match [orphanDispute] 1 orphanDispute).2
      (List.mem_singleton.mpr rfl)⟩⟩

/-- C3 (counterexample): a dispute record stored without its target is
matched against its own id during replay — the lookup returns a match,
not not-found, and the replay effect on `available` confirms it. -/
theorem c3_counterexample :
    orphanDispute ∈ orphanAcct.transactions
    ∧ (orphanAcct.get_transaction_by_id orphanDispute.id).isSome = true
    ∧ orphanAcct.process_transactions.available
        ≠ orphanAcct.available := by
  refine ⟨?_, ?_, ?_⟩
  · simp [orphanAcct, Account.new, Account.add_transaction]
  · norm_num [orphanAcct, orphanDispute, Account.get_transaction_by_id,
      getTransactionById, Account.new, Account.add_transaction]
  · norm_num +decide [orphanAcct, orphanDispute,
      Account.process_transactions, Account.new, Account.add_transaction,
      Account.applyRecord, Account.dispute, Account.get_transaction_by_id,
      getTransactionById, Account.round, roundDp4, roundHalfEven, ratFloor]

def c4acct : Account :=
  (((Account.new 1).add_transaction
      { type_ := "deposit", client_id := 1, id := 1, amount := 3 }).add_transaction
    { type_ := "withdrawal", client_id := 1, id := 2, amount := 5/2 }).add_transaction
    { type_ := "dispute", client_id := 1, id := 1, amount := 0 }

/-- C4 (counterexample): from a fresh account, the history deposit 3
(tx 1), withdrawal 2.5 (tx 2), dispute of tx 1 — all amounts
non-negative — replays to `available = -2.5 < 0`, refuting
non-negativity of the balances. -/
theorem c4_counterexample :
    c4acct.transactions.map Transaction.amount = [3, 5/2, 0]
    ∧ c4acct.available = 0 ∧ c4acct.held = 0 ∧ c4acct.total = 0
    ∧ c4acct.process_transactions.available < 0 := by
  refine ⟨by norm_num [c4acct, Account.new, Account.add_transaction],
    rfl, rfl, rfl, ?_⟩
  norm_num +decide [c4acct, Account.process_transactions, Account.new,
    Account.add_transaction, Account.applyRecord, Account.deposit,
    Account.withdrawal, Account.dispute, Account.get_transaction_by_id,
    getTransactionById, Account.round, roundDp4, roundHalfEven, ratFloor]

/-- C4 (amended): starting from an account with all balances zero and
replaying a history of deposit and withdrawal records only, all with
non-negative amounts, the balances `available`, `held` and `total`
are all non-negative after replay.  (With dispute/resolve/chargeback
records the property fails — see the counterexample.) -/
theorem c4_nonneg_dw (a : Account)
    (h0a : a.available = 0) (h0h : a.held = 0) (h0t : a.total = 0)
    (hrec : ∀ t ∈ a.transactions,
      (t.type_ = "deposit" ∨ t.type_ = "withdrawal") ∧ 0 ≤ t.amount) :
    0 ≤ a.process_transactions.available
    ∧ 0 ≤ a.process_transactions.held
    ∧ 0 ≤ a.process_transactions.total := by
  obtain ⟨g1, g2, g3⟩ :=
    foldl_dw_nonneg a.transactions a hrec (le_of_eq h0a.symm) h0h
      (by rw [h0t, h0a])
  refine ⟨?_, ?_, ?_⟩
  · rw [process_transactions_available]; exact roundDp4_nonneg g1
  · rw [process_transactions_held, g2, roundDp4_zero]
  · rw [process_transactions_total, g3]; exact roundDp4_nonneg g1

def c4wacct : Account :=
  ((Account.new 1).add_transaction
    { type_ := "deposit", client_id := 1, id := 1, amount := 2 }).add_transaction
    { type_ := "withdrawal", client_id := 1, id := 2, amount := 1 }

theorem c4_nonneg_dw_witness :
    0 ≤ c4wacct.process_transactions.available
    ∧ 0 ≤ c4wacct.process_transactions.held
    ∧ 0 ≤ c4wacct.process_transactions.total :=
  c4_nonneg_dw c4wacct rfl rfl rfl
    (by norm_num +decide [c4wacct, Account.new, Account.add_transaction])

def c6acct3 : Account :=
  (((Account.new 1).add_transaction
      { type_ := "deposit", client_id := 1, id := 1, amount := 3 }).add_transaction
    { type_ := "deposit", client_id := 1, id := 2, amount := 2 }).add_transaction
    { type_ := "dispute", client_id := 1, id := 1, amount := 0 }

def c6acct4 : Account :=
  c6acct3.add_transaction
    { type_ := "chargeback", client_id := 1, id := 1, amount := 0 }

/-- C6: deposit 3 (tx 1), deposit 2 (tx 2), dispute of tx 1 replays to
`available = 2`, `held = 3`, `total = 5`; followed by a chargeback of
tx 1 it replays to `available = 2`, `held = 0`, `total = 2`,
`locked = true`. -/
theorem c6_dispute_chargeback_example :
    c6acct3.process_transactions.available = 2
    ∧ c6acct3.process_transactions.held = 3
    ∧ c6acct3.process_transactions.total = 5
    ∧ c6acct4.process_transactions.available = 2
    ∧ c6acct4.process_transactions.held = 0
    ∧ c6acct4.process_transactions.total = 2
    ∧ c6acct4.process_transactions.locked = true := by
  refine ⟨?_, ?_, ?_, ?_, ?_, ?_, ?_⟩ <;>
    norm_num +decide [c6acct3, c6acct4, Account.process_transactions,
      Account.new, Account.add_transaction, Account.applyRecord,
      Account.deposit, Account.dispute, Account.chargeback,
      Account.get_transaction_by_id, getTransactionById, Account.round,
      roundDp4, roundHalfEven, ratFloor]

def c7acct : Account :=
  ((Account.new 1).add_transaction
    { type_ := "deposit", client_id := 1, id := 1, amount := 5 }).add_transaction
    { type_ := "withdrawal", client_id := 1, id := 2, amount := 7 }

/-- C7 (counterexample): on the fresh-account history deposit 5 (tx 1),
withdrawal 7 (tx 2), one replay yields `available = 5` (the withdrawal
guard fails), but a second replay yields `available = 3` (the guard now
passes), not twice the first net change. -/
theorem c7_counterexample :
    c7acct.available = 0 ∧ c7acct.held = 0 ∧ c7acct.total = 0
    ∧ c7acct.process_transactions.available = 5
    ∧ c7acct.process_transactions.process_transactions.available = 3
    ∧ c7acct.process_transactions.process_transactions.available
        ≠ 2 * c7acct.process_transactions.available := by
  refine ⟨rfl, rfl, rfl, ?_, ?_, ?_⟩ <;>
    norm_num +decide [c7acct, Account.process_transactions, Account.new,
      Account.add_transaction, Account.applyRecord, Account.deposit,
      Account.withdrawal, Account.round, roundDp4, roundHalfEven, ratFloor]

/-- C7 (amended): replay mutates balances starting from the current
state, so a second replay re-applies the whole history; for a history
without withdrawal records (whose guard is the only state-dependent
precondition) the net change after two consecutive replays from a
fresh-balance account is exactly twice the net change after one. -/
theorem c7_double_replay (a : Account)
    (h0a : a.available = 0) (h0h : a.held = 0) (h0t : a.total = 0)
    (hw : ∀ t ∈ a.transactions, t.type_ ≠ "withdrawal") :
    a.process_transactions.process_transactions.available
        = 2 * a.process_transactions.available
    ∧ a.process_transactions.process_transactions.held
        = 2 * a.process_transactions.held
    ∧ a.process_transactions.process_transactions.total
        = 2 * a.process_transactions.total := by
  have hw2 : ∀ t ∈ a.process_transactions.transactions,
      t.type_ ≠ "withdrawal" := by
    rw [process_transactions_transactions]; exact hw
  obtain ⟨f1a, f1h, f1t⟩ := foldl_applyRecord_delta a.transactions a hw
  obtain ⟨f2a, f2h, f2t⟩ :=
    foldl_applyRecord_delta a.process_transactions.transactions
      a.process_transactions hw2
  rw [process_transactions_transactions] at f2a f2h f2t
  refine ⟨?_, ?_, ?_⟩
  · rw [process_transactions_available a.process_transactions,
      process_transactions_transactions, f2a,
      process_transactions_available a, f1a, h0a, zero_add,
      roundDp4_round_add]
  · rw [process_transactions_held a.process_transactions,
      process_transactions_transactions, f2h,
      process_transactions_held a, f1h, h0h, zero_add,
      roundDp4_round_add]
  · rw [process_transactions_total a.process_transactions,
      process_transactions_transactions, f2t,
      process_transactions_total a, f1t, h0t, zero_add,
      roundDp4_round_add]

def c7wacct : Account :=
  ((Account.new 1).add_transaction
    { type_ := "deposit", client_id := 1, id := 1, amount := 3 }).add_transaction
    { type_ := "dispute", client_id := 1, id := 1, amount := 0 }

theorem c7_double_replay_witness :
    c7wacct.process_transactions.process_transactions.available
        = 2 * c7wacct.process_transactions.available
    ∧ c7wacct.process_transactions.process_transactions.held
        = 2 * c7wacct.process_transactions.held
    ∧ c7wacct.process_transactions.process_transactions.total
        = 2 * c7wacct.process_transactions.total :=
  c7_double_replay c7wacct rfl rfl rfl
    (by simp +decide [c7wacct, Account.new, Account.add_transaction])
